import Mathlib

/-!
Verification development for the GekkoFS data plane (repository snapshot
`voidspiral/gekkofs-v0.9.2`).

The definitions below are shallow embeddings of:
 * `src/src/daemon/backend/data/chunk_storage.cpp` (`ChunkStorage`:
   `absolute`, `get_chunks_dir`, `get_chunk_path`, `write_chunk`,
   `read_chunk`, `trim_chunk_space`),
 * `src/src/daemon/handler/srv_data.cpp` (`rpc_srv_write` / `rpc_srv_read`
   chunk walk and response logic),
 * `src/ifs/src/preload/rpc/ld_rpc_data_ws.cpp` (`rpc_send_write` /
   `rpc_send_read` fan-out and join loops).

Machine integers (`size_t`, `uint64_t`, `off64_t`) are modelled as `Nat`
(`ssize_t` return paths that can be negative are modelled as `Int` where it
matters); the values involved never approach 2^64 in the modelled
computations, and the C++ code itself relies on that.  `std::string` is
modelled as `List Char`.  System calls (`pwrite`/`pread`) are modelled by an
explicit trace of outcomes supplied by the environment; thrown
`ChunkStorageException`s become an explicit error constructor.
-/

/-! ### Errno constants (Linux/asm-generic values used by the sources) -/

def enoent : Nat := 2
def eintr : Nat := 4
def eagain : Nat := 11
def ewouldblock : Nat := 11
def eexist : Nat := 17
def ebusy : Nat := 16
def eioErr : Nat := 5

/-! ### Chunk path construction (`chunk_storage.cpp` lines 56-85)

`ChunkStorage::get_chunks_dir` takes the absolute GekkoFS file path, drops
its first character (`substr(1)`), and replaces every remaining `/` by `:`.
`get_chunk_path` appends `/<chunk_id>`; `absolute` prefixes
`<root_path>/`. -/

def get_chunks_dir (file_path : List Char) : List Char :=
  (file_path.drop 1).map (fun c => if c = '/' then ':' else c)

def get_chunk_path (file_path : List Char) (chunk_id : Nat) : List Char :=
  get_chunks_dir file_path ++ ('/' :: (Nat.repr chunk_id).toList)

def absolutePath (root internal : List Char) : List Char :=
  root ++ ('/' :: internal)

def chunkFilePath (root file_path : List Char) (chunk_id : Nat) : List Char :=
  absolutePath root (get_chunk_path file_path chunk_id)

/-- Leading-slash removal used by the spec wording of the mangled path. -/
def stripLeadingSlash (p : List Char) : List Char :=
  match p with
  | [] => []
  | c :: rest => if c = '/' then rest else c :: rest

/-- Mangled path as the spec words it (§3): `file_path` with its leading `/`
stripped and every remaining `/` replaced by `:`.  Second definition kept for
comparison with `get_chunks_dir`, which is translated from the source. -/
def mangled_path_spec (p : List Char) : List Char :=
  (stripLeadingSlash p).map (fun c => if c = '/' then ':' else c)

/-! ### System-call outcomes

One positional read/write either returns a byte count (`ret n`) or fails
with an errno (`errno e`).  A `ChunkStorage` operation either returns a
byte count (`ok`) or throws a `ChunkStorageException` carrying an errno
(`ex`).  The loops in `write_chunk`/`read_chunk` are driven by a finite
trace of outcomes; a loop that runs past the end of the trace has no result
(`none`), modelling an unbounded run. -/

inductive SyscallRet where
  | ret (n : Nat)
  | errno (e : Nat)
deriving DecidableEq, Repr

inductive ChunkOpResult where
  | ok (n : Nat)
  | ex (e : Nat)
deriving DecidableEq, Repr

/-- Errnos the retry loops treat as retryable (`chunk_storage.cpp` lines
173, 226): `EINTR`, `EAGAIN`, `EWOULDBLOCK`. -/
def retryableErrno (e : Nat) : Bool :=
  e == eintr || e == eagain || e == ewouldblock

/-! ### `ChunkStorage::write_chunk` (`chunk_storage.cpp` lines 143-185) -/

/-- Retry loop of `write_chunk`: `do { wrote = pwrite(...); if (wrote < 0)
{ retry on EINTR/EAGAIN/EWOULDBLOCK else throw } ; wrote_total += wrote; }
while (wrote_total != size); return wrote_total;`. -/
def write_chunk_loop : List SyscallRet → Nat → Nat → Option ChunkOpResult
  | [], _, _ => none
  | o :: rest, size, wrote_total =>
    match o with
    | .errno e =>
      if retryableErrno e then write_chunk_loop rest size wrote_total
      else some (.ex e)
    | .ret n =>
      if wrote_total + n = size then some (.ok (wrote_total + n))
      else write_chunk_loop rest size (wrote_total + n)

/-- Body after `init_chunk_space`: `open(chunk_path, O_WRONLY | O_CREAT,
0640)`; an invalid handle throws, otherwise the pwrite loop runs. -/
def write_chunk_body (openErrno : Option Nat) (trace : List SyscallRet)
    (size : Nat) : Option ChunkOpResult :=
  match openErrno with
  | some e => some (.ex e)
  | none => write_chunk_loop trace size 0

/-- `write_chunk`: `init_chunk_space` first does `mkdir(chunk_dir, 0750)`
and throws unless the error is `EEXIST`; then the open + pwrite loop.
`mkdirErrno`/`openErrno` are the errnos those calls fail with (`none` =
success), `trace` the pwrite outcomes.  The intra-chunk `offset` only
moves bytes, it does not alter control flow, and is kept as a parameter for
shape. -/
def write_chunk (mkdirErrno openErrno : Option Nat) (trace : List SyscallRet)
    (size : Nat) (offset : Nat) : Option ChunkOpResult :=
  match mkdirErrno with
  | some e =>
    if e = eexist then write_chunk_body openErrno trace size
    else some (.ex e)
  | none => write_chunk_body openErrno trace size

/-! ### `ChunkStorage::read_chunk` (`chunk_storage.cpp` lines 194-247) -/

/-- Retry loop of `read_chunk`: a `pread` returning `0` (EOF) breaks and
the short count is returned; retryable errnos continue; any other errno
throws; otherwise the loop continues until `read_total == size`. -/
def read_chunk_loop : List SyscallRet → Nat → Nat → Option ChunkOpResult
  | [], _, _ => none
  | o :: rest, size, read_total =>
    match o with
    | .errno e =>
      if retryableErrno e then read_chunk_loop rest size read_total
      else some (.ex e)
    | .ret 0 => some (.ok read_total)
    | .ret n =>
      if read_total + n = size then some (.ok (read_total + n))
      else read_chunk_loop rest size (read_total + n)

/-- `read_chunk`: `open(chunk_path, O_RDONLY)` — when the chunk file does
not exist the handle is invalid with `errno = ENOENT` and the function
throws `ChunkStorageException(errno, ...)` (lines 200-206); only when the
open succeeds does the pread loop run.  `fsHas` tells which paths exist on
the backing store. -/
def read_chunk (fsHas : List Char → Bool) (root file_path : List Char)
    (chunk_id : Nat) (trace : List SyscallRet) (size : Nat) :
    Option ChunkOpResult :=
  if fsHas (chunkFilePath root file_path chunk_id) then
    read_chunk_loop trace size 0
  else
    some (.ex enoent)

/-! ### `ChunkStorage::trim_chunk_space` (`chunk_storage.cpp` lines 261-288)

The directory listing is `none` when the chunk directory does not exist: in
that case constructing `fs::directory_iterator` throws
`fs::filesystem_error`, which `trim_chunk_space` does not catch
(`fsError` below), as opposed to the `ChunkStorageException` it throws
itself (`ex`).  `unlinkErr id` is the errno `unlink` fails with on chunk
file `id` (`none` = removed successfully). -/

inductive TrimResult where
  | ok
  | ex (e : Nat)
  | fsError
deriving DecidableEq, Repr

/-- Loop body: for each directory entry, parse the chunk id; if
`id >= chunk_start`, unlink it; a failure with an errno other than `ENOENT`
only sets `err_flag`.  Returns the final flag and the list of ids for which
an unlink was attempted. -/
def trim_go (unlinkErr : Nat → Option Nat) (chunk_start : Nat) :
    List Nat → Bool → Bool × List Nat
  | [], flag => (flag, [])
  | id :: rest, flag =>
    if chunk_start ≤ id then
      let flag' :=
        match unlinkErr id with
        | some e => if e = enoent then flag else true
        | none => flag
      let r := trim_go unlinkErr chunk_start rest flag'
      (r.1, id :: r.2)
    else
      trim_go unlinkErr chunk_start rest flag

/-- `trim_chunk_space`: iterate the chunk directory, unlink every chunk
file with id `≥ chunk_start`, and throw a single
`ChunkStorageException(EIO, ...)` afterwards iff `err_flag` was set.
Filenames are the decimal chunk ids, so entries are modelled by their
ids. -/
def trim_chunk_space (dirEntries : Option (List Nat))
    (unlinkErr : Nat → Option Nat) (chunk_start : Nat) :
    TrimResult × List Nat :=
  match dirEntries with
  | none => (.fsError, [])
  | some entries =>
    let r := trim_go unlinkErr chunk_start entries false
    (if r.1 then .ex eioErr else .ok, r.2)

/-! ### Client join loop (`ld_rpc_data_ws.cpp` lines 99-130 and 216-247)

After the fan-out, `rpc_send_write` (and identically `rpc_send_read`) loops
over all issued requests: `margo_wait` failure sets `errno = EBUSY` and
`err = -1`; `margo_get_output` failure sets `err = -1` (leaving `errno`
untouched and `out` zero-initialized); a decoded response with
`out.res != 0` sets `errno = out.res`; `out.io_size` is accumulated and the
handle destroyed unconditionally.  The call returns
`err < 0 ? err : out_size`. -/

structure RpcResponse where
  waitOk : Bool
  getOutputOk : Bool
  res : Nat
  ioSize : Nat
deriving DecidableEq, Repr

structure JoinState where
  errnoSet : Option Nat
  err : Int
  outSize : Int
  destroyed : Nat
deriving DecidableEq, Repr

def join_step (s : JoinState) (r : RpcResponse) : JoinState :=
  let s1 := if r.waitOk then s else { s with errnoSet := some ebusy, err := -1 }
  let s2 := if r.getOutputOk then s1 else { s1 with err := -1 }
  let outRes : Nat := if r.getOutputOk then r.res else 0
  let outIo : Int := if r.getOutputOk then (r.ioSize : Int) else 0
  let s3 := if outRes ≠ 0 then { s2 with errnoSet := some outRes } else s2
  { s3 with outSize := s3.outSize + outIo, destroyed := s3.destroyed + 1 }

def join_all (rs : List RpcResponse) : JoinState :=
  rs.foldl join_step { errnoSet := none, err := 0, outSize := 0, destroyed := 0 }

/-- Return value of `rpc_send_write`/`rpc_send_read` after the join loop:
`(err < 0) ? err : out_size`. -/
def rpc_send_join_ret (rs : List RpcResponse) : Int :=
  if (join_all rs).err < 0 then (join_all rs).err else (join_all rs).outSize

/-! ### Server chunk walk (`srv_data.cpp` lines 230-328 and 520-596)

`rpc_srv_write` and `rpc_srv_read` run the same chunk walk: for
`chnk_id_file` in `[chunk_start, chunk_end]` while `chnk_id_curr <
chunk_n`, skip ids whose `wbitset` bit is unset; the first chunk with
`in.offset > 0` gets `offset_transfer_size` and origin/local offsets `0`;
every other serviced chunk gets `local_offset = total_chunk_size -
chnk_size_left_host`, the `origin_offset` formula, and `transfer_size`
(`chnk_size_left_host` when `chnk_id_curr == chunk_n - 1`, otherwise the
value the variable still holds from its initialization
`min(bulk_size, CHUNKSIZE)`).  The disk tasklet for a chunk uses
intra-chunk offset `in.offset` for the start chunk and `0` otherwise.
The walk is recorded per serviced chunk. -/

structure DataIn where
  offset : Nat
  bulkSize : Nat
  chunkStart : Nat
  chunkEnd : Nat
  chunkN : Nat
  totalChunkSize : Nat
  bitset : Nat → Bool

structure WalkRec where
  chnkIdFile : Nat
  curr : Nat
  sizeLeftBefore : Nat
  originOffset : Nat
  localOffset : Nat
  transferSize : Nat
  taskOffset : Nat
deriving DecidableEq, Repr

/-- One pass of the walk over the remaining chunk ids, carrying
`chnk_id_curr`, `chnk_size_left_host` and the mutable `transfer_size`
variable.  Returns the serviced-chunk records and the final
`chnk_size_left_host`. -/
def srv_data_walk_go (C : Nat) (p : DataIn) :
    List Nat → Nat → Nat → Nat → List WalkRec × Nat
  | [], _, left, _ => ([], left)
  | id :: rest, curr, left, tsize =>
    if p.chunkN ≤ curr then ([], left)
    else if ¬ p.bitset (id - p.chunkStart) then
      srv_data_walk_go C p rest curr left tsize
    else if id = p.chunkStart ∧ 0 < p.offset then
      let ots := if p.offset + p.bulkSize ≤ C then p.bulkSize else C - p.offset
      let w : WalkRec :=
        { chnkIdFile := id, curr := curr, sizeLeftBefore := left,
          originOffset := 0, localOffset := 0, transferSize := ots,
          taskOffset := p.offset }
      let r := srv_data_walk_go C p rest (curr + 1) (left - ots) tsize
      (w :: r.1, r.2)
    else
      let lo := p.totalChunkSize - left
      let oo :=
        if 0 < p.offset then (C - p.offset) + (id - p.chunkStart - 1) * C
        else (id - p.chunkStart) * C
      let ts := if curr = p.chunkN - 1 then left else tsize
      let w : WalkRec :=
        { chnkIdFile := id, curr := curr, sizeLeftBefore := left,
          originOffset := oo, localOffset := lo, transferSize := ts,
          taskOffset := if id = p.chunkStart then p.offset else 0 }
      let r := srv_data_walk_go C p rest (curr + 1) (left - ts) ts
      (w :: r.1, r.2)

/-- Chunk-id interval `[chunk_start, chunk_end]` as a list. -/
def chunkRange (cs ce : Nat) : List Nat := List.range' cs (ce + 1 - cs)

/-- Whole walk with the initial values of `srv_data.cpp` lines 196-218:
`chnk_id_curr = 0`, `chnk_size_left_host = in.total_chunk_size`,
`transfer_size = (bulk_size <= CHUNKSIZE) ? bulk_size : CHUNKSIZE`. -/
def srv_data_walk (C : Nat) (p : DataIn) : List WalkRec × Nat :=
  srv_data_walk_go C p (chunkRange p.chunkStart p.chunkEnd) 0 p.totalChunkSize
    (if p.bulkSize ≤ C then p.bulkSize else C)

/-- Outcome of `rpc_srv_read` after the walk (`srv_data.cpp` lines
597-636): if `chnk_size_left_host == in.total_chunk_size` the handler
returns `HG_CANCELED` without responding; otherwise it waits for the read
tasklets (pushing data back) and responds `{err, io_size}`. -/
inductive ReadRpcOutcome where
  | canceled
  | respond (err : Nat) (ioSize : Nat)
deriving DecidableEq, Repr

def rpc_srv_read_outcome (C : Nat) (p : DataIn) (taskErr taskIo : Nat) :
    ReadRpcOutcome :=
  if (srv_data_walk C p).2 = p.totalChunkSize then .canceled
  else .respond taskErr taskIo

/-! ### Client fan-out (`ld_rpc_data_ws.cpp` lines 14-97 and 135-214)

`rpc_send_write(path, buf, append_flag, in_offset, write_size,
updated_metadentry_size)`: the effective offset, the chunk interval, the
per-destination chunk lists, and the per-destination
`total_chunk_size`.  The helpers `block_num`, `lpad` and `rpad` live in
`global/blocks_calc_util.hpp`, which is not part of the sources. -/

/-- Modelled from the spec: `block_num` of `global/blocks_calc_util.hpp`
is not in the sources; §4.6 gives `chunk_start = offset/CHUNKSIZE`. -/
def block_num (offset blockSize : Nat) : Nat := offset / blockSize

/-- Modelled from the spec: `lpad` of `global/blocks_calc_util.hpp` is not
in the sources; §4.6 subtracts `offset mod CHUNKSIZE` for the first
chunk's owner. -/
def lpad (offset blockSize : Nat) : Nat := offset % blockSize

/-- Modelled from the spec: `rpad` of `global/blocks_calc_util.hpp` is not
in the sources; §4.6 subtracts the right pad written literally as
`CHUNKSIZE − ((offset+size) mod CHUNKSIZE)` for the last chunk's owner. -/
def rpad (offset blockSize : Nat) : Nat := blockSize - offset % blockSize

/-- Right pad with the correction the sum invariant forces: `0` (not
`CHUNKSIZE`) when `offset` is chunk-aligned. -/
def rpadAligned (offset blockSize : Nat) : Nat :=
  (blockSize - offset % blockSize) % blockSize

/-- Effective offset (`ld_rpc_data_ws.cpp` lines 17-19): under
`append_flag` the metadata layer has reserved the space and the write goes
to `updated_metadentry_size - write_size`. -/
def rpc_send_write_offset (append_flag : Bool) (in_offset write_size
    updated_metadentry_size : Nat) : Nat :=
  if append_flag then updated_metadentry_size - write_size else in_offset

def rpc_send_write_chnk_start (C : Nat) (append_flag : Bool)
    (in_offset write_size updated_metadentry_size : Nat) : Nat :=
  block_num (rpc_send_write_offset append_flag in_offset write_size
    updated_metadentry_size) C

def rpc_send_write_chnk_end (C : Nat) (append_flag : Bool)
    (in_offset write_size updated_metadentry_size : Nat) : Nat :=
  block_num (rpc_send_write_offset append_flag in_offset write_size
    updated_metadentry_size + write_size - 1) C

/-- Number of chunks of `[cs, ce]` hashing to target `t`
(`target_chnks[t].size()`); the placement hash `adafs_hash_path_chunk`
for a fixed path is abstracted as `f : chunk_id → target`. -/
def targetChunksCount (f : Nat → Nat) (cs ce t : Nat) : Nat :=
  List.countP (fun k => decide (f k = t)) (chunkRange cs ce)

/-- Distinct targets of the operation, in some order (the code collects
them in first-occurrence order; only membership and distinctness matter
here). -/
def sendTargets (f : Nat → Nat) (cs ce : Nat) : List Nat :=
  ((chunkRange cs ce).map f).dedup

/-- Per-destination `total_chunk_size` (`ld_rpc_data_ws.cpp` lines 69-73):
`target_chnks[t].size() * CHUNKSIZE`, minus `lpad(offset, CHUNKSIZE)` when
`t` owns the first chunk, minus `rpad(offset + write_size, CHUNKSIZE)`
when `t` owns the last chunk — with `rpad` modelled literally from the
spec's words. -/
def rpc_send_total_chunk_size (C : Nat) (f : Nat → Nat)
    (offset size t : Nat) : Nat :=
  let cs := block_num offset C
  let ce := block_num (offset + size - 1) C
  let base := targetChunksCount f cs ce t * C
  let base1 := if t = f cs then base - lpad offset C else base
  if t = f ce then base1 - rpad (offset + size) C else base1

/-- Per-destination `total_chunk_size` with the aligned-case right pad. -/
def rpc_send_total_chunk_size_fixed (C : Nat) (f : Nat → Nat)
    (offset size t : Nat) : Nat :=
  let cs := block_num offset C
  let ce := block_num (offset + size - 1) C
  let base := targetChunksCount f cs ce t * C
  let base1 := if t = f cs then base - lpad offset C else base
  if t = f ce then base1 - rpadAligned (offset + size) C else base1

/-- Sum of the per-destination sizes over all destinations (literal
`rpad`). -/
def rpc_send_total_sum (C : Nat) (f : Nat → Nat) (offset size : Nat) : Nat :=
  ((sendTargets f (block_num offset C) (block_num (offset + size - 1) C)).map
    (rpc_send_total_chunk_size C f offset size)).sum

/-- Sum of the per-destination sizes over all destinations (aligned right
pad). -/
def rpc_send_total_sum_fixed (C : Nat) (f : Nat → Nat)
    (offset size : Nat) : Nat :=
  ((sendTargets f (block_num offset C) (block_num (offset + size - 1) C)).map
    (rpc_send_total_chunk_size_fixed C f offset size)).sum

/-- The RPC input a client write of `size` bytes at `offset` produces for
target `t` (`ld_rpc_data_ws.cpp` lines 74-81): `in.offset =
lpad(offset, CHUNKSIZE)`, `in.chunk_n = target_chnks[t].size()`,
`in.chunk_start/chunk_end` the interval bounds, `in.total_chunk_size` the
per-destination size, and `bulk_size` the registered buffer's size, i.e.
`write_size`.  The `wbitset` is modelled from the spec (§4.6 step 6, the
field is absent from the legacy client in the sources): bit `i` is set iff
`placement(path, chunk_start + i) == t`. -/
def clientWriteIn (C : Nat) (f : Nat → Nat) (offset size t : Nat) : DataIn :=
  { offset := lpad offset C
    bulkSize := size
    chunkStart := block_num offset C
    chunkEnd := block_num (offset + size - 1) C
    chunkN := targetChunksCount f (block_num offset C)
      (block_num (offset + size - 1) C) t
    totalChunkSize := rpc_send_total_chunk_size_fixed C f offset size t
    bitset := fun i => decide (f (block_num offset C + i) = t) }

/-- Properties claim C2 states of one serviced chunk of the write walk. -/
def c2Prop (C : Nat) (f : Nat → Nat) (offset size t : Nat) (r : WalkRec) :
    Prop :=
  ((r.chnkIdFile = block_num offset C ∧ 0 < lpad offset C) →
    r.transferSize =
      (if lpad offset C + size ≤ C then size else C - lpad offset C) ∧
    r.originOffset = 0 ∧ r.localOffset = 0 ∧ r.taskOffset = lpad offset C) ∧
  (¬ (r.chnkIdFile = block_num offset C ∧ 0 < lpad offset C) →
    r.localOffset =
      rpc_send_total_chunk_size_fixed C f offset size t - r.sizeLeftBefore ∧
    r.originOffset =
      (if 0 < lpad offset C then
        (C - lpad offset C) + (r.chnkIdFile - block_num offset C - 1) * C
      else (r.chnkIdFile - block_num offset C) * C) ∧
    r.transferSize =
      (if r.curr = targetChunksCount f (block_num offset C)
          (block_num (offset + size - 1) C) t - 1
       then r.sizeLeftBefore else C) ∧
    r.taskOffset =
      (if r.chnkIdFile = block_num offset C then lpad offset C else 0))

instance (C : Nat) (f : Nat → Nat) (offset size t : Nat) (r : WalkRec) :
    Decidable (c2Prop C f offset size t r) := by
  unfold c2Prop
  infer_instance

/-! ### Theorems -/

theorem write_chunk_loop_ok (trace : List SyscallRet) (size wrote_total n : Nat)
    (h : write_chunk_loop trace size wrote_total = some (.ok n)) : n = size := by
  induction trace generalizing wrote_total with
  | nil => simp [write_chunk_loop] at h
  | cons o rest ih =>
    cases o with
    | errno e =>
      by_cases hr : retryableErrno e
      · exact ih _ (by simpa [write_chunk_loop, hr] using h)
      · simp [write_chunk_loop, hr] at h
    | ret m =>
      by_cases he : wrote_total + m = size
      · simp [write_chunk_loop, he] at h
        omega
      · exact ih _ (by simpa [write_chunk_loop, he] using h)

theorem write_chunk_loop_ex (trace : List SyscallRet) (size wrote_total e : Nat)
    (h : write_chunk_loop trace size wrote_total = some (.ex e)) :
    retryableErrno e = false ∧ SyscallRet.errno e ∈ trace := by
  induction trace generalizing wrote_total with
  | nil => simp [write_chunk_loop] at h
  | cons o rest ih =>
    cases o with
    | errno e' =>
      by_cases hr : retryableErrno e'
      · have := ih _ (by simpa [write_chunk_loop, hr] using h)
        exact ⟨this.1, List.mem_cons_of_mem _ this.2⟩
      · simp [write_chunk_loop, hr] at h
        subst h
        exact ⟨by simpa using hr, List.mem_cons_self _ _⟩
    | ret m =>
      by_cases he : wrote_total + m = size
      · simp [write_chunk_loop, he] at h
      · have := ih _ (by simpa [write_chunk_loop, he] using h)
        exact ⟨this.1, List.mem_cons_of_mem _ this.2⟩

/-- Claim C5: for every `write_chunk(path, chunk_id, buf, size, offset)`
with `offset + size ≤ CHUNKSIZE` that completes without raising, the
returned byte count equals `size` exactly; retryable errnos
(`EINTR`/`EAGAIN`/`EWOULDBLOCK`) never surface from the pwrite loop — an
errno surfacing from the loop is non-retryable and was produced by a
pwrite in the trace (the only other throws are the mkdir/open failures). -/
theorem c5_write_chunk_full_write (C : Nat) (mkdirErrno openErrno : Option Nat)
    (trace : List SyscallRet) (size offset : Nat)
    (hpre : offset + size ≤ C) :
    (∀ n, write_chunk mkdirErrno openErrno trace size offset = some (.ok n) →
      n = size) ∧
    (∀ e, write_chunk mkdirErrno openErrno trace size offset = some (.ex e) →
      (mkdirErrno = some e ∧ e ≠ eexist) ∨ openErrno = some e ∨
        (retryableErrno e = false ∧ SyscallRet.errno e ∈ trace)) := by
  constructor
  · intro n h
    match hm : mkdirErrno with
    | some em =>
      by_cases hme : em = eexist
      · match ho : openErrno with
        | some eo => simp [write_chunk, write_chunk_body, hm, hme, ho] at h
        | none =>
          exact write_chunk_loop_ok trace size 0 n
            (by simpa [write_chunk, write_chunk_body, hm, hme, ho] using h)
      · simp [write_chunk, hm, hme] at h
    | none =>
      match ho : openErrno with
      | some eo => simp [write_chunk, write_chunk_body, hm, ho] at h
      | none =>
        exact write_chunk_loop_ok trace size 0 n
          (by simpa [write_chunk, write_chunk_body, hm, ho] using h)
  · intro e h
    match hm : mkdirErrno with
    | some em =>
      by_cases hme : em = eexist
      · match ho : openErrno with
        | some eo =>
          simp [write_chunk, write_chunk_body, hm, hme, ho] at h
          exact Or.inr (Or.inl (by simp [h]))
        | none =>
          exact Or.inr (Or.inr (write_chunk_loop_ex trace size 0 e
            (by simpa [write_chunk, write_chunk_body, hm, hme, ho] using h)))
      · simp [write_chunk, hm, hme] at h
        exact Or.inl (by simp [h, hme]; omega)
    | none =>
      match ho : openErrno with
      | some eo =>
        simp [write_chunk, write_chunk_body, hm, ho] at h
        exact Or.inr (Or.inl (by simp [h]))
      | none =>
        exact Or.inr (Or.inr (write_chunk_loop_ex trace size 0 e
          (by simpa [write_chunk, write_chunk_body, hm, ho] using h)))

theorem c5_write_chunk_full_write_witness :
    (3 : Nat) + 5 ≤ 400 ∧
      (∀ n, write_chunk none none
          [SyscallRet.errno eintr, SyscallRet.ret 2, SyscallRet.ret 3] 5 3 =
          some (.ok n) → n = 5) :=
  ⟨by decide,
    (c5_write_chunk_full_write 400 none none
      [SyscallRet.errno eintr, SyscallRet.ret 2, SyscallRet.ret 3] 5 3
      (by decide)).1⟩

/-- Claim C1 (counterexample): with no chunk file on the backing store,
`read_chunk` does not return `0` — the failed `open` makes it throw
`ChunkStorageException` with `errno = ENOENT` (`chunk_storage.cpp` lines
200-206).  Concrete input: empty backing store, `file_path = "/foo/bar"`,
`chunk_id = 0`, `size = 10`. -/
theorem c1_counterexample :
    read_chunk (fun _ => false) "/tmp/rootdir".toList "/foo/bar".toList 0 [] 10 =
      some (ChunkOpResult.ex enoent) ∧
    some (ChunkOpResult.ex enoent) ≠ some (ChunkOpResult.ok 0) := by
  constructor
  · rfl
  · decide

/-- Claim C1 (amended): for every `file_path` and `chunk_id`, if the chunk
file does not exist on the backing store, `read_chunk` raises a
`ChunkStorageException` carrying `ENOENT` (it does not return `0`; turning
the miss into a zero-filled hole is left to the caller). -/
theorem c1_read_chunk_missing_raises (fsHas : List Char → Bool)
    (root file_path : List Char) (chunk_id : Nat) (trace : List SyscallRet)
    (size : Nat)
    (h : fsHas (chunkFilePath root file_path chunk_id) = false) :
    read_chunk fsHas root file_path chunk_id trace size =
      some (ChunkOpResult.ex enoent) := by
  simp [read_chunk, h]

theorem c1_read_chunk_missing_raises_witness :
    (fun _ : List Char => false) (chunkFilePath "/r".toList "/a".toList 3) = false ∧
    read_chunk (fun _ => false) "/r".toList "/a".toList 3 [] 7 =
      some (ChunkOpResult.ex enoent) :=
  ⟨rfl, c1_read_chunk_missing_raises (fun _ => false) "/r".toList "/a".toList 3 [] 7 rfl⟩

theorem trim_go_attempted (unlinkErr : Nat → Option Nat) (chunk_start : Nat)
    (entries : List Nat) (flag : Bool) :
    (trim_go unlinkErr chunk_start entries flag).2 =
      entries.filter (fun id => chunk_start ≤ id) := by
  induction entries generalizing flag with
  | nil => simp [trim_go]
  | cons id rest ih =>
    by_cases h : chunk_start ≤ id
    · simp [trim_go, h, List.filter_cons, ih]
    · simp [trim_go, h, List.filter_cons, ih]

/-- An entry on which the trim loop sets `err_flag`: its id is in range and
its unlink fails with an errno other than `ENOENT`. -/
def badEntry (unlinkErr : Nat → Option Nat) (chunk_start id : Nat) : Bool :=
  decide (chunk_start ≤ id) &&
    (match unlinkErr id with
     | some e => decide (¬ e = enoent)
     | none => false)

theorem trim_go_flag (unlinkErr : Nat → Option Nat) (chunk_start : Nat)
    (entries : List Nat) (flag : Bool) :
    (trim_go unlinkErr chunk_start entries flag).1 =
      (flag || entries.any (badEntry unlinkErr chunk_start)) := by
  induction entries generalizing flag with
  | nil => simp [trim_go]
  | cons id rest ih =>
    by_cases h : chunk_start ≤ id
    · match hu : unlinkErr id with
      | some e =>
        by_cases he : e = enoent
        · simp [trim_go, h, hu, he, ih, badEntry]
        · simp [trim_go, h, hu, he, ih, badEntry]
      | none => simp [trim_go, h, hu, ih, badEntry]
    · simp [trim_go, h, ih, badEntry]

/-- Claim C7: `trim_chunk_space` attempts to remove exactly the chunk
files whose id is `≥ chunk_start` (even after a failure it attempts all
remaining ones); failures with `ENOENT` are ignored; the operation
succeeds iff every attempted unlink succeeded or failed only with
`ENOENT`, and otherwise it raises one single aggregated
`ChunkStorageException(EIO)` after the loop. -/
theorem c7_trim_chunk_space (entries : List Nat)
    (unlinkErr : Nat → Option Nat) (chunk_start : Nat) :
    (trim_chunk_space (some entries) unlinkErr chunk_start).2 =
        entries.filter (fun id => chunk_start ≤ id) ∧
    ((trim_chunk_space (some entries) unlinkErr chunk_start).1 = .ok ↔
      ∀ id ∈ entries.filter (fun id => chunk_start ≤ id),
        ∀ e, unlinkErr id = some e → e = enoent) ∧
    ((trim_chunk_space (some entries) unlinkErr chunk_start).1 ≠ .ok →
      (trim_chunk_space (some entries) unlinkErr chunk_start).1 = .ex eioErr) := by
  refine ⟨?_, ?_, ?_⟩
  · simpa [trim_chunk_space] using trim_go_attempted unlinkErr chunk_start entries false
  · simp only [trim_chunk_space]
    rw [trim_go_flag]
    simp only [Bool.false_or]
    constructor
    · intro hok id hid e hue
      by_cases ha : entries.any (badEntry unlinkErr chunk_start)
      · simp [ha] at hok
      · have hid' := List.mem_filter.1 hid
        have hbad : badEntry unlinkErr chunk_start id = false := by
          have := List.any_eq_false.1 (by simpa using ha)
          simpa using this id hid'.1
        have hle : chunk_start ≤ id := by simpa using hid'.2
        simpa [badEntry, hle, hue] using hbad
    · intro hall
      have hfalse : entries.any (badEntry unlinkErr chunk_start) = false := by
        rw [List.any_eq_false]
        intro id hid
        by_cases hle : chunk_start ≤ id
        · match hu : unlinkErr id with
          | some e =>
            have := hall id (List.mem_filter.2 ⟨hid, by simpa using hle⟩) e hu
            simp [badEntry, hle, hu, this]
          | none => simp [badEntry, hle, hu]
        · simp [badEntry, hle]
      simp [hfalse]
  · intro hne
    simp only [trim_chunk_space] at hne ⊢
    by_cases hf : (trim_go unlinkErr chunk_start entries false).1
    · simp [hf]
    · simp [hf] at hne

theorem c7_trim_chunk_space_witness :
    ((trim_chunk_space (some [0, 1, 2, 3]) (fun _ => none) 2).1 = .ok ↔
      ∀ id ∈ [0, 1, 2, 3].filter (fun id => 2 ≤ id),
        ∀ e, (fun _ : Nat => (none : Option Nat)) id = some e → e = enoent) :=
  (c7_trim_chunk_space [0, 1, 2, 3] (fun _ => none) 2).2.1

/-- Claim C10: when the chunk directory of a file does not exist under
`root_path`, `trim_chunk_space` is not a no-op: the `fs::directory_iterator`
constructor raises a `fs::filesystem_error` which the function neither
catches nor converts into a `ChunkStorageException` — unlike the `ENOENT`
tolerance applied to individual chunk files. -/
theorem c10_trim_missing_dir_raises (unlinkErr : Nat → Option Nat)
    (chunk_start : Nat) :
    trim_chunk_space none unlinkErr chunk_start = (TrimResult.fsError, []) ∧
    (trim_chunk_space none unlinkErr chunk_start).1 ≠ TrimResult.ok ∧
    ∀ e, (trim_chunk_space none unlinkErr chunk_start).1 ≠ TrimResult.ex e := by
  refine ⟨rfl, by simp [trim_chunk_space], ?_⟩
  intro e
  simp [trim_chunk_space]

theorem c10_trim_missing_dir_raises_witness :
    trim_chunk_space none (fun _ => none) 5 = (TrimResult.fsError, []) :=
  (c10_trim_missing_dir_raises (fun _ => none) 5).1

theorem mangled_no_slash (p : List Char) : '/' ∉ get_chunks_dir p := by
  intro hmem
  simp only [get_chunks_dir, List.mem_map] at hmem
  obtain ⟨c, -, hc⟩ := hmem
  by_cases h : c = '/'
  · simp [h] at hc
  · rw [if_neg h] at hc
    exact h hc

/-- Claim C9: for every absolute slash-separated `file_path`, chunk `k` is
stored at `<root>/<mangled_path>/<k>`, where `mangled_path` is `file_path`
with its leading `/` removed and every remaining `/` replaced by `:`; the
mangled directory name contains no `/`, so no directory hierarchy is
mirrored on the backing store. -/
theorem c9_chunk_path_layout (root p : List Char) (k : Nat)
    (h : p.head? = some '/') :
    chunkFilePath root p k =
      root ++ ('/' :: (mangled_path_spec p ++ ('/' :: (Nat.repr k).toList))) ∧
    '/' ∉ mangled_path_spec p := by
  cases p with
  | nil => simp at h
  | cons c rest =>
    have hc : c = '/' := by simpa using h
    subst hc
    have hspec : mangled_path_spec ('/' :: rest) = get_chunks_dir ('/' :: rest) := by
      simp [mangled_path_spec, get_chunks_dir, stripLeadingSlash]
    constructor
    · simp [chunkFilePath, absolutePath, get_chunk_path, hspec]
    · rw [hspec]
      exact mangled_no_slash _

theorem c9_chunk_path_layout_witness :
    ("/foo/bar".toList.head? = some '/') ∧
    chunkFilePath "/tmp/rootdir".toList "/foo/bar".toList 7 =
      "/tmp/rootdir".toList ++
        ('/' :: (mangled_path_spec "/foo/bar".toList ++ ('/' :: (Nat.repr 7).toList))) :=
  ⟨by decide,
    (c9_chunk_path_layout "/tmp/rootdir".toList "/foo/bar".toList 7 (by decide)).1⟩

theorem join_step_err (s : JoinState) (r : RpcResponse) :
    (join_step s r).err =
      (if r.waitOk && r.getOutputOk then s.err else -1) := by
  cases hw : r.waitOk <;> cases hg : r.getOutputOk <;>
    by_cases hres : (if r.getOutputOk then r.res else 0) ≠ 0 <;>
      simp_all [join_step]

theorem join_step_destroyed (s : JoinState) (r : RpcResponse) :
    (join_step s r).destroyed = s.destroyed + 1 := by
  cases hw : r.waitOk <;> cases hg : r.getOutputOk <;>
    by_cases hres : (if r.getOutputOk then r.res else 0) ≠ 0 <;>
      simp_all [join_step]

theorem join_step_outSize (s : JoinState) (r : RpcResponse) :
    (join_step s r).outSize =
      s.outSize + (if r.getOutputOk then (r.ioSize : Int) else 0) := by
  cases hw : r.waitOk <;> cases hg : r.getOutputOk <;>
    by_cases hres : (if r.getOutputOk then r.res else 0) ≠ 0 <;>
      simp_all [join_step]

theorem join_foldl_destroyed (rs : List RpcResponse) (s : JoinState) :
    (rs.foldl join_step s).destroyed = s.destroyed + rs.length := by
  induction rs generalizing s with
  | nil => simp
  | cons r rest ih =>
    simp only [List.foldl_cons, ih, join_step_destroyed, List.length_cons]
    omega

theorem join_foldl_err_sticky (rs : List RpcResponse) (s : JoinState)
    (h : s.err = -1) : (rs.foldl join_step s).err = -1 := by
  induction rs generalizing s with
  | nil => simpa using h
  | cons r rest ih =>
    simp only [List.foldl_cons]
    apply ih
    rw [join_step_err, h]
    by_cases hb : r.waitOk && r.getOutputOk <;> simp [hb]

theorem join_foldl_good (rs : List RpcResponse) (s : JoinState)
    (h : ∀ r ∈ rs, r.waitOk = true ∧ r.getOutputOk = true) :
    (rs.foldl join_step s).err = s.err ∧
    (rs.foldl join_step s).outSize =
      s.outSize + ((rs.map fun r => (r.ioSize : Int)).sum) := by
  induction rs generalizing s with
  | nil => simp
  | cons r rest ih =>
    have hr := h r (List.mem_cons_self _ _)
    have hrest : ∀ x ∈ rest, x.waitOk = true ∧ x.getOutputOk = true :=
      fun x hx => h x (List.mem_cons_of_mem _ hx)
    have := ih (join_step s r) hrest
    refine ⟨?_, ?_⟩
    · rw [List.foldl_cons, this.1, join_step_err, hr.1, hr.2]
      simp
    · rw [List.foldl_cons, this.2, join_step_outSize, hr.2]
      simp [add_assoc]

theorem join_foldl_bad (rs : List RpcResponse) (s : JoinState)
    (h : ∃ r ∈ rs, r.waitOk = false ∨ r.getOutputOk = false) :
    (rs.foldl join_step s).err = -1 := by
  induction rs generalizing s with
  | nil => simp at h
  | cons r rest ih =>
    rcases h with ⟨r', hr', hfail⟩
    rcases List.mem_cons.1 hr' with h1 | h1
    · subst h1
      simp only [List.foldl_cons]
      apply join_foldl_err_sticky
      rw [join_step_err]
      rcases hfail with hf | hf <;> simp [hf]
    · exact ih (join_step s r) ⟨r', h1, hfail⟩

theorem join_foldl_outSize_nonneg (rs : List RpcResponse) (s : JoinState)
    (h : 0 ≤ s.outSize) : 0 ≤ (rs.foldl join_step s).outSize := by
  induction rs generalizing s with
  | nil => simpa using h
  | cons r rest ih =>
    simp only [List.foldl_cons]
    apply ih
    rw [join_step_outSize]
    by_cases hg : r.getOutputOk <;> simp [hg] <;> omega

/-- Claim C6 (counterexample): a failed `margo_get_output` is a
transport-level failure that makes the final return negative but does not
set `errno = EBUSY` — the loop only sets `err = -1` in that case
(`ld_rpc_data_ws.cpp` lines 114-118), so the claim's "any transport-level
failure sets errno = EBUSY" is false.  Concrete input: one response whose
wait succeeds and whose output decode fails. -/
theorem c6_counterexample :
    rpc_send_join_ret
        [{ waitOk := true, getOutputOk := false, res := 0, ioSize := 0 }] = -1 ∧
    (join_all
        [{ waitOk := true, getOutputOk := false, res := 0, ioSize := 0 }]).errnoSet
      = none := by
  constructor
  · rfl
  · rfl

/-- Claim C6 (amended): the client waits on every handle and drains every
response even after an error (one destroy per response); the final return
is negative exactly when some `margo_wait` or `margo_get_output` failed — a
failed wait sets `errno = EBUSY` (possibly overwritten by a later nonzero
`out.err`) while a failed output decode only forces the negative return;
when no transport-level failure occurred the call returns the accumulated
`io_size`, and any decoded response with nonzero `out.err` sets
`errno = out.err` while its `io_size` is still accumulated; the value
returned is `err < 0 ? err : total_io_size`. -/
theorem c6_join_loop (rs : List RpcResponse) :
    (join_all rs).destroyed = rs.length ∧
    (rpc_send_join_ret rs < 0 ↔
      ∃ r ∈ rs, r.waitOk = false ∨ r.getOutputOk = false) ∧
    ((∀ r ∈ rs, r.waitOk = true ∧ r.getOutputOk = true) →
      rpc_send_join_ret rs = (rs.map fun r => (r.ioSize : Int)).sum) ∧
    (∀ s r, r.waitOk = false →
      (join_step s r).err = -1 ∧
      (join_step s r).errnoSet =
        some (if r.getOutputOk ∧ r.res ≠ 0 then r.res else ebusy)) ∧
    (∀ s r, r.waitOk = true → r.getOutputOk = true → r.res ≠ 0 →
      (join_step s r).errnoSet = some r.res ∧
      (join_step s r).outSize = s.outSize + (r.ioSize : Int)) := by
  refine ⟨?_, ⟨?_, ?_⟩, ?_, ?_, ?_⟩
  · simpa [join_all] using join_foldl_destroyed rs
      { errnoSet := none, err := 0, outSize := 0, destroyed := 0 }
  · intro hneg
    by_contra hno
    push_neg at hno
    have hgood : ∀ r ∈ rs, r.waitOk = true ∧ r.getOutputOk = true := by
      intro r hr
      have := hno r hr
      constructor
      · cases hw : r.waitOk
        · exact absurd hw this.1
        · rfl
      · cases hg : r.getOutputOk
        · exact absurd hg this.2
        · rfl
    have herr := (join_foldl_good rs
      { errnoSet := none, err := 0, outSize := 0, destroyed := 0 } hgood).1
    have hnn : 0 ≤ (join_all rs).outSize := by
      simpa [join_all] using
        join_foldl_outSize_nonneg rs
          { errnoSet := none, err := 0, outSize := 0, destroyed := 0 } (le_refl 0)
    rw [rpc_send_join_ret] at hneg
    by_cases hlt : (join_all rs).err < 0
    · rw [join_all] at hlt
      rw [herr] at hlt
      simp at hlt
    · simp only [if_neg hlt] at hneg
      omega
  · intro hfail
    have := join_foldl_bad rs
      { errnoSet := none, err := 0, outSize := 0, destroyed := 0 } hfail
    rw [rpc_send_join_ret]
    have herr : (join_all rs).err = -1 := by simpa [join_all] using this
    rw [herr]
    simp
  · intro hgood
    have h := join_foldl_good rs
      { errnoSet := none, err := 0, outSize := 0, destroyed := 0 } hgood
    rw [rpc_send_join_ret]
    have herr : (join_all rs).err = 0 := by simpa [join_all] using h.1
    have hout : (join_all rs).outSize = (rs.map fun r => (r.ioSize : Int)).sum := by
      have := h.2
      simpa [join_all] using this
    rw [herr, hout]
    simp
  · intro s r hw
    constructor
    · rw [join_step_err, hw]
      simp
    · by_cases hg : r.getOutputOk
      · by_cases hres : r.res ≠ 0
        · simp [join_step, hw, hg, hres]
        · simp [join_step, hw, hg, hres]
      · simp [join_step, hw, hg]
  · intro s r hw hg hres
    constructor
    · simp [join_step, hw, hg, hres]
    · rw [join_step_outSize, hg]
      simp

theorem c6_join_loop_witness :
    rpc_send_join_ret
        [{ waitOk := true, getOutputOk := true, res := 0, ioSize := 11 }] =
      ([({ waitOk := true, getOutputOk := true, res := 0, ioSize := 11 } :
        RpcResponse)].map fun r => (r.ioSize : Int)).sum :=
  (c6_join_loop
    [{ waitOk := true, getOutputOk := true, res := 0, ioSize := 11 }]).2.2.1
    (by decide)

theorem srv_data_walk_go_nil_left (C : Nat) (p : DataIn) (l : List Nat)
    (curr left tsize : Nat)
    (h : (srv_data_walk_go C p l curr left tsize).1 = []) :
    (srv_data_walk_go C p l curr left tsize).2 = left := by
  induction l generalizing curr left tsize with
  | nil => simp [srv_data_walk_go]
  | cons id rest ih =>
    by_cases h1 : p.chunkN ≤ curr
    · simp [srv_data_walk_go, h1]
    · by_cases h2 : p.bitset (id - p.chunkStart)
      · by_cases h3 : id = p.chunkStart ∧ 0 < p.offset
        · exfalso
          obtain ⟨he, ho⟩ := h3
          subst he
          rw [Nat.sub_self] at h2
          simp [srv_data_walk_go, h1, h2, ho] at h
        · exfalso
          simp [srv_data_walk_go, h1, h2, h3] at h
      · simp only [srv_data_walk_go, if_neg h1, h2] at h ⊢
        simp only [Bool.not_eq_true] at h ⊢
        simp only [if_pos] at h ⊢
        exact ih curr left tsize h

/-- Claim C8: in the server read handler, if after the chunk walk
`chnk_size_left_host` equals `total_chunk_size` — which in particular
happens when no chunk of the request matched this host, i.e. the walk
serviced nothing — the handler returns the transport-level cancellation
indicator `HG_CANCELED` instead of a normal `{err, io_size}` response;
otherwise it waits for the read tasklets (pushing the data back) and
responds like the write handler's final step. -/
theorem c8_read_cancel_on_no_chunks (C : Nat) (p : DataIn)
    (taskErr taskIo : Nat) :
    ((srv_data_walk C p).1 = [] →
      rpc_srv_read_outcome C p taskErr taskIo = .canceled) ∧
    (rpc_srv_read_outcome C p taskErr taskIo = .canceled ↔
      (srv_data_walk C p).2 = p.totalChunkSize) ∧
    ((srv_data_walk C p).2 ≠ p.totalChunkSize →
      rpc_srv_read_outcome C p taskErr taskIo = .respond taskErr taskIo) := by
  refine ⟨?_, ⟨?_, ?_⟩, ?_⟩
  · intro h
    have h2 : (srv_data_walk C p).2 = p.totalChunkSize := by
      rw [srv_data_walk] at h ⊢
      exact srv_data_walk_go_nil_left C p _ 0 p.totalChunkSize _ h
    simp [rpc_srv_read_outcome, h2]
  · intro h
    by_cases hc : (srv_data_walk C p).2 = p.totalChunkSize
    · exact hc
    · simp [rpc_srv_read_outcome, hc] at h
  · intro hc
    simp [rpc_srv_read_outcome, hc]
  · intro hc
    simp [rpc_srv_read_outcome, hc]

theorem c8_read_cancel_on_no_chunks_witness :
    ((srv_data_walk 400
        { offset := 0, bulkSize := 5, chunkStart := 0, chunkEnd := 2,
          chunkN := 0, totalChunkSize := 7, bitset := fun _ => false }).1 = []) ∧
    rpc_srv_read_outcome 400
        { offset := 0, bulkSize := 5, chunkStart := 0, chunkEnd := 2,
          chunkN := 0, totalChunkSize := 7, bitset := fun _ => false } 3 4 =
      .canceled :=
  ⟨by decide,
    (c8_read_cancel_on_no_chunks 400
      { offset := 0, bulkSize := 5, chunkStart := 0, chunkEnd := 2,
        chunkN := 0, totalChunkSize := 7, bitset := fun _ => false } 3 4).1
      (by decide)⟩

/-- Claim C4: for every client write of `size > 0` bytes, if `append_flag`
is set the effective offset is `updated_metadentry_size - write_size`, and
the chunk interval sent to the daemons is `chunk_start = offset/CHUNKSIZE`
and `chunk_end = (offset + write_size - 1)/CHUNKSIZE` (integer
division). -/
theorem c4_append_offset_chunk_range (C : Nat) (append_flag : Bool)
    (in_offset write_size updated_metadentry_size : Nat)
    (hs : 0 < write_size) :
    (append_flag = true →
      rpc_send_write_offset append_flag in_offset write_size
          updated_metadentry_size =
        updated_metadentry_size - write_size) ∧
    rpc_send_write_chnk_start C append_flag in_offset write_size
        updated_metadentry_size =
      rpc_send_write_offset append_flag in_offset write_size
          updated_metadentry_size / C ∧
    rpc_send_write_chnk_end C append_flag in_offset write_size
        updated_metadentry_size =
      (rpc_send_write_offset append_flag in_offset write_size
          updated_metadentry_size + write_size - 1) / C := by
  refine ⟨?_, rfl, rfl⟩
  intro ha
  simp [rpc_send_write_offset, ha]

theorem c4_append_offset_chunk_range_witness :
    (0 : Nat) < 9 ∧
    ((true : Bool) = true →
      rpc_send_write_offset true 5 9 100 = 100 - 9) :=
  ⟨by decide, (c4_append_offset_chunk_range 400 true 5 9 100 (by decide)).1⟩

theorem ceil_block_core (C q r : Nat) (hC : 0 < C) (hr : r < C) :
    (q + 1) * C = (C * q + r + 1) + (C - (C * q + r + 1) % C) % C := by
  have hmul : (q + 1) * C = C * q + C := by ring
  have hmod : (C * q + r + 1) % C = (r + 1) % C := by
    rw [Nat.add_assoc, Nat.mul_add_mod]
  rcases Nat.lt_or_ge (r + 1) C with hcase | hcase
  · rw [hmod, Nat.mod_eq_of_lt hcase, hmul,
      Nat.mod_eq_of_lt (show C - (r + 1) < C by omega)]
    omega
  · have hrc : r + 1 = C := by omega
    rw [hmod, hrc, Nat.mod_self, Nat.sub_zero, Nat.mod_self, hmul]
    omega

theorem ceil_block (C m : Nat) (hC : 0 < C) (hm : 0 < m) :
    ((m - 1) / C + 1) * C = m + (C - m % C) % C := by
  have h := ceil_block_core C ((m - 1) / C) ((m - 1) % C) hC (Nat.mod_lt _ hC)
  have hdm := Nat.div_add_mod (m - 1) C
  have hmeq : C * ((m - 1) / C) + (m - 1) % C + 1 = m := by omega
  rw [hmeq] at h
  exact h

theorem span_bytes (C offset size : Nat) (hC : 0 < C) (hs : 0 < size) :
    ((offset + size - 1) / C + 1 - offset / C) * C =
      size + offset % C + (C - (offset + size) % C) % C := by
  have hle : offset / C ≤ (offset + size - 1) / C :=
    Nat.div_le_div_right (by omega)
  have hceil := ceil_block C (offset + size) hC (by omega)
  have hoff := Nat.div_add_mod offset C
  have hx : ((offset + size - 1) / C + 1 - offset / C) * C + (offset / C) * C =
      ((offset + size - 1) / C + 1) * C := by
    rw [← Nat.add_mul]
    congr 1
    omega
  have hoc : (offset / C) * C = C * (offset / C) := Nat.mul_comm _ _
  omega

theorem chunk_span_size (C offset size k : Nat) (hC : 0 < C) (hs : 0 < size)
    (h : offset / C + k ≤ (offset + size - 1) / C) :
    k * C + 1 ≤ size + offset % C := by
  have h2 : (offset / C + k) * C ≤ offset + size - 1 :=
    (Nat.le_div_iff_mul_le hC).1 h
  have h3 : (offset / C + k) * C = (offset / C) * C + k * C := by ring
  have hoff := Nat.div_add_mod offset C
  have hoc : (offset / C) * C = C * (offset / C) := Nat.mul_comm _ _
  omega

theorem middle_chunk_forces_large (C : Nat) (f : Nat → Nat) (offset size : Nat)
    (hC : 0 < C) (hs : 0 < size) (i idNext : Nat)
    (hile : block_num offset C ≤ i)
    (hnext : i + 1 ≤ idNext)
    (hce : idNext ≤ block_num (offset + size - 1) C)
    (hcase : i = block_num offset C → lpad offset C = 0) :
    C ≤ size := by
  by_cases hi : i = block_num offset C
  · have ha := hcase hi
    have h1 : offset / C + 1 ≤ (offset + size - 1) / C := by
      simp only [block_num] at hce hnext hi
      omega
    have h2 := chunk_span_size C offset size 1 hC hs h1
    simp only [lpad] at ha
    omega
  · have h1 : offset / C + 2 ≤ (offset + size - 1) / C := by
      simp only [block_num] at hce hnext hile hi
      omega
    have h2 := chunk_span_size C offset size 2 hC hs h1
    have hmod : offset % C < C := Nat.mod_lt _ hC
    omega

theorem walk_go_c2 (C : Nat) (f : Nat → Nat) (offset size t : Nat)
    (hC : 0 < C) (hs : 0 < size) (p : DataIn)
    (hoff : p.offset = lpad offset C)
    (hbulk : p.bulkSize = size)
    (hcs : p.chunkStart = block_num offset C)
    (hce : p.chunkEnd = block_num (offset + size - 1) C)
    (hN : p.chunkN =
      targetChunksCount f (block_num offset C) (block_num (offset + size - 1) C) t)
    (htot : p.totalChunkSize = rpc_send_total_chunk_size_fixed C f offset size t) :
    ∀ (m i curr left tsize : Nat),
      i + m = p.chunkEnd + 1 →
      p.chunkStart ≤ i →
      p.chunkN ≤ curr +
        List.countP (fun id => p.bitset (id - p.chunkStart)) (List.range' i m) →
      (p.chunkN ≤ curr ∨ tsize = (if p.bulkSize ≤ C then p.bulkSize else C)) →
      ∀ r ∈ (srv_data_walk_go C p (List.range' i m) curr left tsize).1,
        c2Prop C f offset size t r := by
  intro m
  induction m with
  | zero =>
    intro i curr left tsize him hile hcount hts r hr
    simp [srv_data_walk_go] at hr
  | succ m ih =>
    intro i curr left tsize him hile hcount hts r hr
    rw [List.range'_succ] at hr hcount
    rw [List.countP_cons] at hcount
    by_cases hskip : p.chunkN ≤ curr
    · simp [srv_data_walk_go, hskip] at hr
    · by_cases hbit : p.bitset (i - p.chunkStart)
      · have hbn : ¬ (¬ p.bitset (i - p.chunkStart) = true) := by simp [hbit]
        rw [if_pos hbit] at hcount
        simp only [srv_data_walk_go] at hr
        rw [if_neg hskip] at hr
        rw [if_neg hbn] at hr
        by_cases hfirst : i = p.chunkStart ∧ 0 < p.offset
        · -- start chunk carrying the intra-chunk offset
          rw [if_pos hfirst] at hr
          rcases List.mem_cons.1 hr with hre | hrest
          · subst hre
            simp only [c2Prop]
            refine ⟨fun _ => ⟨?_, by trivial, by trivial, ?_⟩, fun hneg => ?_⟩
            · rw [hoff, hbulk]
            · exact hoff
            · exact absurd ⟨hfirst.1.trans hcs, by rw [← hoff]; exact hfirst.2⟩ hneg
          · refine ih (i + 1) (curr + 1) _ tsize (by omega) (by omega)
              (by omega) ?_ r hrest
            right
            rcases hts with hts | hts
            · exact absurd hts hskip
            · exact hts
        · -- every other serviced chunk
          rw [if_neg hfirst] at hr
          have htsv : tsize = (if p.bulkSize ≤ C then p.bulkSize else C) := by
            rcases hts with hts | hts
            · exact absurd hts hskip
            · exact hts
          rcases List.mem_cons.1 hr with hre | hrest
          · subst hre
            simp only [c2Prop]
            refine ⟨fun hpre => ?_, fun _ => ⟨?_, ?_, ?_, ?_⟩⟩
            · exact absurd ⟨hpre.1.trans hcs.symm, by rw [hoff]; exact hpre.2⟩ hfirst
            · rw [htot]
            · rw [hoff, hcs]
            · have htc : targetChunksCount f (block_num offset C)
                  (block_num (offset + size - 1) C) t = p.chunkN := hN.symm
              rw [htc]
              by_cases hlast : curr = p.chunkN - 1
              · simp [hlast]
              · rw [if_neg hlast, if_neg hlast, htsv, hbulk]
                have hpos : 0 < List.countP
                    (fun id => p.bitset (id - p.chunkStart))
                    (List.range' (i + 1) m) := by
                  omega
                obtain ⟨idNext, hmem, -⟩ := List.countP_pos_iff.1 hpos
                have hb := List.mem_range'_1.1 hmem
                have hlarge : C ≤ size := by
                  refine middle_chunk_forces_large C f offset size hC hs i idNext
                    (by rw [← hcs]; exact hile) (by omega)
                    (by rw [← hce]; omega) ?_
                  intro hieq
                  by_contra hne
                  exact hfirst ⟨by rw [hcs]; exact hieq, by
                    rw [hoff]
                    omega⟩
                split_ifs with hsc
                · omega
                · rfl
            · rw [hoff, hcs]
          · refine ih (i + 1) (curr + 1) _ _ (by omega) (by omega) (by omega) ?_ r hrest
            by_cases hlast : curr = p.chunkN - 1
            · left
              omega
            · right
              rw [if_neg hlast]
              exact htsv
      · -- chunk does not hash to this host: skipped
        have hbn : (¬ p.bitset (i - p.chunkStart) = true) := by simpa using hbit
        rw [if_neg (by simpa using hbit)] at hcount
        simp only [srv_data_walk_go] at hr
        rw [if_neg hskip] at hr
        rw [if_pos hbn] at hr
        exact ih (i + 1) curr left tsize (by omega) (by omega) (by omega) hts r hr

theorem clientWriteIn_countP (C : Nat) (f : Nat → Nat) (offset size t : Nat) :
    List.countP (fun id => (clientWriteIn C f offset size t).bitset
        (id - (clientWriteIn C f offset size t).chunkStart))
      (List.range' (block_num offset C)
        (block_num (offset + size - 1) C + 1 - block_num offset C)) =
    targetChunksCount f (block_num offset C) (block_num (offset + size - 1) C) t := by
  unfold targetChunksCount chunkRange
  apply List.countP_congr
  intro id hid
  have h1 : block_num offset C ≤ id := (List.mem_range'_1.1 hid).1
  simp [clientWriteIn, Nat.add_sub_cancel' h1]

/-- Claim C2: in the server write handler's walk over `[chunk_start,
chunk_end]` fed with the inputs the client fan-out produces for any target
`t` of a `size`-byte write at `offset`, the first chunk with `in.offset > 0`
is pulled with `offset_transfer_size = (in.offset + bulk_size ≤ CHUNKSIZE) ?
bulk_size : CHUNKSIZE - in.offset` at origin and local offsets `0`; every
other serviced chunk gets `local_offset = total_chunk_size -
chnk_size_left_host`, `origin_offset = (in.offset > 0) ? (CHUNKSIZE -
in.offset) + (chnk_id_file - chunk_start - 1)*CHUNKSIZE : (chnk_id_file -
chunk_start)*CHUNKSIZE`, and `transfer_size = chnk_size_left_host` for the
last serviced chunk (`chnk_id_curr == chunk_n - 1`) and `CHUNKSIZE`
otherwise; the write tasklet uses intra-chunk offset `in.offset` for the
start chunk and `0` for all others. -/
theorem c2_srv_write_walk (C : Nat) (f : Nat → Nat) (offset size t : Nat)
    (hC : 0 < C) (hs : 0 < size) :
    ∀ r ∈ (srv_data_walk C (clientWriteIn C f offset size t)).1,
      c2Prop C f offset size t r := by
  intro r hr
  refine walk_go_c2 C f offset size t hC hs (clientWriteIn C f offset size t)
    rfl rfl rfl rfl rfl rfl
    (block_num (offset + size - 1) C + 1 - block_num offset C)
    (block_num offset C) 0 (clientWriteIn C f offset size t).totalChunkSize
    (if (clientWriteIn C f offset size t).bulkSize ≤ C then
      (clientWriteIn C f offset size t).bulkSize else C)
    ?_ ?_ ?_ (Or.inr rfl) r ?_
  · show block_num offset C + (block_num (offset + size - 1) C + 1 - block_num offset C)
        = (clientWriteIn C f offset size t).chunkEnd + 1
    have hcs_le : block_num offset C ≤ block_num (offset + size - 1) C :=
      Nat.div_le_div_right (by omega)
    simp only [clientWriteIn]
    omega
  · exact le_refl _
  · rw [clientWriteIn_countP]
    simp [clientWriteIn]
  · exact hr


theorem targetChunksCount_eq_count (f : Nat → Nat) (cs ce t : Nat) :
    targetChunksCount f cs ce t = List.count t ((chunkRange cs ce).map f) := by
  rw [List.count_eq_countP, List.countP_map]
  unfold targetChunksCount
  apply List.countP_congr
  intro k _
  by_cases h : f k = t <;> simp [h]

theorem cnt_one (f : Nat → Nat) (cs ce t k : Nat) (hk1 : cs ≤ k) (hk2 : k ≤ ce)
    (h : f k = t) : 1 ≤ targetChunksCount f cs ce t := by
  unfold targetChunksCount chunkRange
  refine List.countP_pos_iff.2 ⟨k, ?_, by simp [h]⟩
  rw [List.mem_range'_1]
  omega

theorem cnt_two (f : Nat → Nat) (cs ce t : Nat) (hlt : cs < ce)
    (h1 : f cs = t) (h2 : f ce = t) :
    2 ≤ targetChunksCount f cs ce t := by
  unfold targetChunksCount chunkRange
  have hn : ce + 1 - cs = (ce - cs) + 1 := by omega
  rw [hn, List.range'_succ, List.countP_cons]
  have hmem : ce ∈ List.range' (cs + 1) (ce - cs) := by
    rw [List.mem_range'_1]
    omega
  have hpos : 0 < List.countP (fun k => decide (f k = t))
      (List.range' (cs + 1) (ce - cs)) :=
    List.countP_pos_iff.2 ⟨ce, hmem, by simp [h2]⟩
  split
  · omega
  · rename_i hcond
    simp [h1] at hcond

theorem sum_map_ite_single (l : List Nat) (x v : Nat) (hnd : l.Nodup)
    (hx : x ∈ l) :
    (l.map fun y => if y = x then v else 0).sum = v := by
  induction l with
  | nil => cases hx
  | cons a rest ih =>
    rcases List.mem_cons.1 hx with h | h
    · have hnotin : a ∉ rest := (List.nodup_cons.1 hnd).1
      have hz : (rest.map fun y => if y = x then v else 0).sum = 0 := by
        apply List.sum_eq_zero
        intro y hy
        simp only [List.mem_map] at hy
        obtain ⟨z, hz1, hz2⟩ := hy
        rw [← hz2, if_neg]
        intro hzx
        rw [hzx, h] at hz1
        exact hnotin hz1
      rw [List.map_cons, List.sum_cons, if_pos h.symm, hz]
      omega
    · have hax : a ≠ x := by
        rintro rfl
        exact (List.nodup_cons.1 hnd).1 h
      rw [List.map_cons, List.sum_cons, if_neg hax,
        ih (List.nodup_cons.1 hnd).2 h]
      omega

theorem total_chunk_size_fixed_eq (C : Nat) (f : Nat → Nat)
    (offset size t : Nat) :
    rpc_send_total_chunk_size_fixed C f offset size t =
      targetChunksCount f (block_num offset C) (block_num (offset + size - 1) C) t * C
        - ((if t = f (block_num offset C) then lpad offset C else 0)
           + (if t = f (block_num (offset + size - 1) C) then
               rpadAligned (offset + size) C else 0)) := by
  unfold rpc_send_total_chunk_size_fixed
  by_cases h1 : t = f (block_num offset C)
  · by_cases h2 : t = f (block_num (offset + size - 1) C)
    · simp only [if_pos h1, if_pos h2, Nat.sub_sub]
    · simp only [if_pos h1, if_neg h2, Nat.add_zero]
  · by_cases h2 : t = f (block_num (offset + size - 1) C)
    · simp only [if_neg h1, if_pos h2, Nat.zero_add]
    · simp only [if_neg h1, if_neg h2, Nat.add_zero, Nat.sub_zero]

theorem gval_le_total (C : Nat) (f : Nat → Nat) (offset size t : Nat)
    (hC : 0 < C) (hs : 0 < size) :
    (if t = f (block_num offset C) then lpad offset C else 0)
      + (if t = f (block_num (offset + size - 1) C) then
          rpadAligned (offset + size) C else 0)
    ≤ targetChunksCount f (block_num offset C) (block_num (offset + size - 1) C) t * C := by
  have hcs_le : block_num offset C ≤ block_num (offset + size - 1) C :=
    Nat.div_le_div_right (by omega)
  have ha : lpad offset C < C := Nat.mod_lt _ hC
  have hb : rpadAligned (offset + size) C < C := by
    unfold rpadAligned
    exact Nat.mod_lt _ hC
  by_cases h1 : t = f (block_num offset C)
  · by_cases h2 : t = f (block_num (offset + size - 1) C)
    · rcases Nat.lt_or_ge (block_num offset C) (block_num (offset + size - 1) C)
        with hlt | hge
      · have h2cnt := cnt_two f (block_num offset C)
          (block_num (offset + size - 1) C) t hlt h1.symm h2.symm
        rw [if_pos h1, if_pos h2]
        calc lpad offset C + rpadAligned (offset + size) C
            ≤ 2 * C := by omega
          _ ≤ targetChunksCount f (block_num offset C)
                (block_num (offset + size - 1) C) t * C :=
              Nat.mul_le_mul_right C h2cnt
      · have hone := cnt_one f (block_num offset C)
          (block_num (offset + size - 1) C) t (block_num offset C)
          (le_refl _) hcs_le h1.symm
        rw [if_pos h1, if_pos h2]
        have hN1 : (offset + size - 1) / C + 1 - offset / C = 1 := by
          simp only [block_num] at hcs_le hge
          omega
        have hspan := span_bytes C offset size hC hs
        rw [hN1, one_mul] at hspan
        have hle : lpad offset C + rpadAligned (offset + size) C ≤ C := by
          simp only [lpad, rpadAligned]
          omega
        calc lpad offset C + rpadAligned (offset + size) C ≤ C := hle
          _ = 1 * C := (one_mul C).symm
          _ ≤ targetChunksCount f (block_num offset C)
                (block_num (offset + size - 1) C) t * C :=
              Nat.mul_le_mul_right C hone
    · have hone := cnt_one f (block_num offset C)
        (block_num (offset + size - 1) C) t (block_num offset C)
        (le_refl _) hcs_le h1.symm
      rw [if_pos h1, if_neg h2]
      calc lpad offset C + 0 ≤ C := by omega
        _ = 1 * C := (one_mul C).symm
        _ ≤ _ := Nat.mul_le_mul_right C hone
  · by_cases h2 : t = f (block_num (offset + size - 1) C)
    · have hone := cnt_one f (block_num offset C)
        (block_num (offset + size - 1) C) t (block_num (offset + size - 1) C)
        hcs_le (le_refl _) h2.symm
      rw [if_neg h1, if_pos h2]
      calc 0 + rpadAligned (offset + size) C ≤ C := by omega
        _ = 1 * C := (one_mul C).symm
        _ ≤ _ := Nat.mul_le_mul_right C hone
    · simp [h1, h2]

theorem c3_sum_fixed (C : Nat) (f : Nat → Nat) (offset size : Nat)
    (hC : 0 < C) (hs : 0 < size) :
    rpc_send_total_sum_fixed C f offset size = size := by
  unfold rpc_send_total_sum_fixed sendTargets
  have hnd := List.nodup_dedup
    ((chunkRange (block_num offset C) (block_num (offset + size - 1) C)).map f)
  have hcs_le : block_num offset C ≤ block_num (offset + size - 1) C :=
    Nat.div_le_div_right (by omega)
  have hmemcs : f (block_num offset C) ∈
      ((chunkRange (block_num offset C) (block_num (offset + size - 1) C)).map f).dedup := by
    rw [List.mem_dedup]
    refine List.mem_map_of_mem f ?_
    unfold chunkRange
    rw [List.mem_range'_1]
    omega
  have hmemce : f (block_num (offset + size - 1) C) ∈
      ((chunkRange (block_num offset C) (block_num (offset + size - 1) C)).map f).dedup := by
    rw [List.mem_dedup]
    refine List.mem_map_of_mem f ?_
    unfold chunkRange
    rw [List.mem_range'_1]
    omega
  have hg : (((chunkRange (block_num offset C) (block_num (offset + size - 1) C)).map f).dedup.map
      (fun t => (if t = f (block_num offset C) then lpad offset C else 0) +
        (if t = f (block_num (offset + size - 1) C) then
          rpadAligned (offset + size) C else 0))).sum
      = lpad offset C + rpadAligned (offset + size) C := by
    rw [List.sum_map_add, sum_map_ite_single _ _ _ hnd hmemcs,
      sum_map_ite_single _ _ _ hnd hmemce]
  have hpt : ((chunkRange (block_num offset C) (block_num (offset + size - 1) C)).map f).dedup.map
      (fun t => rpc_send_total_chunk_size_fixed C f offset size t +
        ((if t = f (block_num offset C) then lpad offset C else 0) +
         (if t = f (block_num (offset + size - 1) C) then
           rpadAligned (offset + size) C else 0)))
      = ((chunkRange (block_num offset C) (block_num (offset + size - 1) C)).map f).dedup.map
        (fun t => targetChunksCount f (block_num offset C)
          (block_num (offset + size - 1) C) t * C) :=
    List.map_congr_left (fun t _ => by
      rw [total_chunk_size_fixed_eq]
      exact Nat.sub_add_cancel (gval_le_total C f offset size t hC hs))
  have key : (((chunkRange (block_num offset C) (block_num (offset + size - 1) C)).map f).dedup.map
      (rpc_send_total_chunk_size_fixed C f offset size)).sum
      + (lpad offset C + rpadAligned (offset + size) C)
      = (((chunkRange (block_num offset C) (block_num (offset + size - 1) C)).map f).dedup.map
        (fun t => targetChunksCount f (block_num offset C)
          (block_num (offset + size - 1) C) t * C)).sum := by
    rw [← hg, ← List.sum_map_add, hpt]
  have hcm : ((chunkRange (block_num offset C) (block_num (offset + size - 1) C)).map f).dedup.map
      (fun t => targetChunksCount f (block_num offset C)
        (block_num (offset + size - 1) C) t * C)
      = ((chunkRange (block_num offset C) (block_num (offset + size - 1) C)).map f).dedup.map
        (fun t => List.count t
          ((chunkRange (block_num offset C) (block_num (offset + size - 1) C)).map f) * C) :=
    List.map_congr_left (fun t _ => by rw [targetChunksCount_eq_count])
  have hcnt : (((chunkRange (block_num offset C) (block_num (offset + size - 1) C)).map f).dedup.map
      (fun t => targetChunksCount f (block_num offset C)
        (block_num (offset + size - 1) C) t * C)).sum
      = (block_num (offset + size - 1) C + 1 - block_num offset C) * C := by
    rw [hcm, List.sum_map_mul_right, List.sum_map_count_dedup_eq_length,
      List.length_map]
    unfold chunkRange
    rw [List.length_range']
  have hspan := span_bytes C offset size hC hs
  simp only [block_num, lpad, rpadAligned] at key hcnt ⊢
  omega

/-- Claim C3 (counterexample): with the right pad modelled literally from
the spec's words as `CHUNKSIZE - ((offset+size) mod CHUNKSIZE)`, a
chunk-aligned single-chunk write (`CHUNKSIZE = 400`, `offset = 0`,
`size = 400`, one destination) gets per-target size `0`, so the sum over
destinations is `0`, not `write_size` — the two halves of the claim
contradict each other at aligned ends. -/
theorem c3_counterexample :
    rpc_send_total_sum 400 (fun _ => 0) 0 400 = 0 ∧ (0 : Nat) ≠ 400 := by
  constructor
  · decide
  · decide

/-- Claim C3 (amended): for every client write (and symmetrically read) of
`size > 0` bytes at `offset`, the size sent to target `t` is
`|target_chunks[t]| * CHUNKSIZE`, minus `offset mod CHUNKSIZE` if `t` owns
the first chunk, minus the right pad `(CHUNKSIZE - ((offset+size) mod
CHUNKSIZE)) mod CHUNKSIZE` (i.e. `0` when `offset+size` is chunk-aligned)
if `t` owns the last chunk; and the sum of `total_chunk_size` over all
destinations equals `size`. -/
theorem c3_per_target_size_and_sum (C : Nat) (f : Nat → Nat)
    (offset size : Nat) (hC : 0 < C) (hs : 0 < size) :
    (∀ t ∈ sendTargets f (block_num offset C) (block_num (offset + size - 1) C),
      rpc_send_total_chunk_size_fixed C f offset size t =
        targetChunksCount f (block_num offset C)
            (block_num (offset + size - 1) C) t * C
          - (if t = f (block_num offset C) then offset % C else 0)
          - (if t = f (block_num (offset + size - 1) C) then
              (C - (offset + size) % C) % C else 0)) ∧
    rpc_send_total_sum_fixed C f offset size = size := by
  constructor
  · intro t _
    rw [total_chunk_size_fixed_eq, Nat.sub_sub]
    simp only [lpad, rpadAligned]
  · exact c3_sum_fixed C f offset size hC hs

theorem c3_per_target_size_and_sum_witness :
    (0 : Nat) < 400 ∧ (0 : Nat) < 1000 ∧
    rpc_send_total_sum_fixed 400 (fun k => k % 3) 5 1000 = 1000 :=
  ⟨by decide, by decide,
    (c3_per_target_size_and_sum 400 (fun k => k % 3) 5 1000
      (by decide) (by decide)).2⟩

theorem c2_srv_write_walk_witness :
    (0 : Nat) < 400 ∧ (0 : Nat) < 803 ∧
    (srv_data_walk 400 (clientWriteIn 400 (fun k => k % 2) 399 803 1)).1.length = 2 ∧
    ∀ r ∈ (srv_data_walk 400 (clientWriteIn 400 (fun k => k % 2) 399 803 1)).1,
      c2Prop 400 (fun k => k % 2) 399 803 1 r :=
  ⟨by decide, by decide, by decide,
    c2_srv_write_walk 400 (fun k => k % 2) 399 803 1 (by decide) (by decide)⟩
